import Mathlib

/-!
Verification of the LeDaViS tool (`src/LeDaViStool.py`) against its
natural-language specification.

The development shallowly embeds the Python program:

* the lark parse tree, after lark's filtering of anonymous literal tokens,
  is embedded as the inductive types `Param` / `ParamL` / `SimpleRec` /
  `RecBody` (the shapes the grammar can produce under an entity record);
* the transformer class `T` (visit_tokens=True) is `transformParam` /
  `transformRec`: its Python values (str, int, float, Token, tuple, list,
  residual Tree) become the inductive `PyVal`;
* `explode_object`, `explore_data` and the two graph builders
  `make_graph_complete` / `make_graph_entity` are embedded as executable
  functions; Python's `defaultdict` auto-vivification and CPython's
  "dictionary changed size during iteration" RuntimeError are modelled
  explicitly, since the claims turn on them.

Machine integers do not occur (Python ints are unbounded); floating point
is not modelled (see `pyFloatRepr`) and no theorem depends on it.
-/

/-- Decidable equality of `Except` results, for evaluating the embedded
fallible operations on concrete inputs. -/
instance {ε α : Type} [DecidableEq ε] [DecidableEq α] : DecidableEq (Except ε α)
  | .ok a, .ok b => if h : a = b then .isTrue (by rw [h]) else .isFalse (by simp [h])
  | .error a, .error b => if h : a = b then .isTrue (by rw [h]) else .isFalse (by simp [h])
  | .ok _, .error _ => .isFalse (by simp)
  | .error _, .ok _ => .isFalse (by simp)

/-! ## The parse tree under an entity record

Lark with `parser="lalr"` keeps named terminals in the tree and filters
anonymous literal tokens.  Under a `parameter` rule the possible shapes
are the constructors below.  `pstr` keeps the list of child token texts of
a `string` rule (WS, SPECIAL, DIGIT, LOWER, UPPER, CONTROL_DIRECTIVE, the
two REVERSE_SOLIDUS tokens); `pbinary` keeps the HEX tokens of a `binary`
rule together with their source lines (the literal radix digit "0".."3"
is an anonymous token and is filtered out by lark). -/

mutual
inductive Param where
  | typed (kw : String) (inner : Param)
  | typedEmpty
  | pstr (toks : List String)
  | pnone
  | pomit
  | pint (text : String)
  | preal (text : String)
  | penum (kw : String)
  | pid (text : String) (line : Nat)
  | pbinary (hexes : List (String × Nat))
  | plist (ps : ParamL)
  deriving DecidableEq
inductive ParamL where
  | nil
  | cons (p : Param) (ps : ParamL)
  deriving DecidableEq
end

/-- A `simple_record` node: `keyword "(" parameter_list? ")"`. -/
structure SimpleRec where
  kw : String
  params : Option ParamL
  deriving DecidableEq

/-- The record of an entity instance: `simple_record` or `subsuper_record`
(a parenthesised list of simple records). -/
inductive RecBody where
  | simple (r : SimpleRec)
  | complex (rs : List SimpleRec)
  deriving DecidableEq

/-! ## Python values produced by the transformer `T` -/

mutual
/-- A Python value as produced by `T(visit_tokens=True).transform`:
`vstr`/`vint`/`vfloat` are plain Python scalars, `vtok` is a residual lark
`Token` (a `str` subclass carrying `.line`), `vtuple`/`vlist` are Python
tuples and lists, `vtree` is a residual lark `Tree` (its rule had no
callback). -/
inductive PyVal where
  | vstr (s : String)
  | vint (n : Int)
  | vfloat (text : String)
  | vtok (s : String) (line : Nat)
  | vtuple (xs : PyL)
  | vlist (xs : PyL)
  | vtree (xs : PyL)
  deriving DecidableEq
inductive PyL where
  | nil
  | cons (x : PyVal) (xs : PyL)
  deriving DecidableEq
end

def pyLOfList : List PyVal → PyL
  | [] => .nil
  | x :: xs => .cons x (pyLOfList xs)

/-! ## Decoding of INT tokens (`INT = int` in `T`) -/

def digVal (c : Char) : Nat := c.toNat - 48

/-- Value of a digit string, as Python `int()` computes it. -/
def pyNatOfDigits (l : List Char) : Nat := l.foldl (fun a c => a * 10 + digVal c) 0

/-- Python `int(text)` on an INT token (`SIGN? DIGIT+`): an optional
leading sign, then the value of the digits. -/
def pyIntOfTextL (l : List Char) : Int :=
  if l.head? = some '-' then - (pyNatOfDigits l.tail : Int)
  else if l.head? = some '+' then (pyNatOfDigits l.tail : Int)
  else (pyNatOfDigits l : Int)

def pyIntOfText (s : String) : Int := pyIntOfTextL s.data

/-- Decimal digits of a natural number, fuelled so that the kernel can
evaluate it (`n + 1` units of fuel always suffice: the argument strictly
decreases under division by ten). -/
def pyNatPrintAux : Nat → Nat → List Char
  | 0, _ => []
  | f + 1, n =>
    if n < 10 then [Char.ofNat (48 + n)]
    else pyNatPrintAux f (n / 10) ++ [Char.ofNat (48 + n % 10)]

/-- Decimal digits of a natural number, as Python `str()` renders it. -/
def pyNatPrint (n : Nat) : List Char := pyNatPrintAux (n + 1) n

/-- Python `str()` of an int. -/
def pyIntStr : Int → String
  | .ofNat m => ⟨pyNatPrint m⟩
  | .negSucc m => ⟨'-' :: pyNatPrint (m + 1)⟩

/-- Modelled from the spec: Python `str(float(text))` for a REAL token.
Floating-point decode/shortest-repr formatting is not modelled in this
development (the gate on floating point); the definition below is a
placeholder so that `explode_object` is total, and no theorem in this file
depends on its value on any input. -/
def pyFloatRepr (text : String) : String := text

/-! ## The transformer `T` (visit_tokens=True) -/

def pyTokList : List (String × Nat) → PyL
  | [] => .nil
  | (s, ln) :: xs => .cons (.vtok s ln) (pyTokList xs)

mutual
/-- `T.transform` on a `parameter` subtree.  Rule callbacks from the
source: `id` returns its (anonymous) token; `string`/`keyword` join their
child tokens; `untyped_parameter`/`typed_parameter`/`parameter` return
`s[0]` if nonempty else `''` — so a typed parameter keeps only its keyword
and drops the inner parameter; `enumeration` returns its keyword;
`parameter_list = tuple`, `list = list`; token callbacks `INT = int`,
`REAL = float`, `NONE = str`, `STAR = str`; `binary` has no callback and
stays a `Tree` of HEX tokens. -/
def transformParam : Param → PyVal
  | .typed kw _ => .vstr kw
  | .typedEmpty => .vstr ""
  | .pstr toks => .vstr (String.join toks)
  | .pnone => .vstr "$"
  | .pomit => .vstr "*"
  | .pint t => .vint (pyIntOfText t)
  | .preal t => .vfloat t
  | .penum kw => .vstr kw
  | .pid t ln => .vtok t ln
  | .pbinary hx => .vtree (pyTokList hx)
  | .plist ps => .vlist (transformParams ps)
def transformParams : ParamL → PyL
  | .nil => .nil
  | .cons p ps => .cons (transformParam p) (transformParams ps)
end

/-- `T.transform` on a `simple_record`: `simple_record = tuple`. -/
def transformSimpleRec : SimpleRec → PyVal
  | ⟨kw, none⟩ => .vtuple (.cons (.vstr kw) .nil)
  | ⟨kw, some ps⟩ =>
      .vtuple (.cons (.vstr kw) (.cons (.vtuple (transformParams ps)) .nil))

/-- `T.transform` on the record of an entity instance
(`subsuper_record = tuple`, `simple_record_list = tuple`). -/
def transformRec : RecBody → PyVal
  | .simple r => transformSimpleRec r
  | .complex rs => .vtuple (.cons (.vtuple (pyLOfList (rs.map transformSimpleRec))) .nil)

/-! ## `explode_object` and the Entity Indexer -/

mutual
/-- The body values built by `explode_object`: Python strings and nested
Python lists. -/
inductive Body where
  | bstr (s : String)
  | blst (xs : BodyL)
  deriving DecidableEq
inductive BodyL where
  | nil
  | cons (b : Body) (bs : BodyL)
  deriving DecidableEq
end

mutual
/-- `explode_object(t, refs)` from the source, with the mutated `refs`
list made explicit in the result: lists, tuples and trees map to a Python
list of the exploded children; a `Token` maps to its `str` and is appended
to `refs`; every other value maps to its `str`. -/
def explodePy : PyVal → Body × List String
  | .vtuple xs => let r := explodePyL xs; (.blst r.1, r.2)
  | .vlist xs => let r := explodePyL xs; (.blst r.1, r.2)
  | .vtree xs => let r := explodePyL xs; (.blst r.1, r.2)
  | .vtok s _ => (.bstr s, [s])
  | .vstr s => (.bstr s, [])
  | .vint n => (.bstr (pyIntStr n), [])
  | .vfloat t => (.bstr (pyFloatRepr t), [])
def explodePyL : PyL → BodyL × List String
  | .nil => (.nil, [])
  | .cons x xs =>
      let r := explodePy x
      let rs := explodePyL xs
      (.cons r.1 rs.1, r.2 ++ rs.2)
end

/-- An entity instance of the data section, as `explore_data` reads it off
the transformed tree: `id = str(entity_instance.children[0])` (the id
token) and `record = entity_instance.children[1]`. -/
structure EntityInst where
  idText : String
  idLine : Nat
  record : RecBody
  deriving DecidableEq

/-- The transformed `entity_instance` subtree (rules `entity_instance` and
`simple_entity_instance`/`complex_entity_instance` have no callbacks in
`T`, so both stay `Tree`s; the record is a tuple). -/
def entityPy (e : EntityInst) : PyVal :=
  .vtree (.cons (.vtree (.cons (.vtok e.idText e.idLine)
    (.cons (transformRec e.record) .nil))) .nil)

mutual
/-- `traverse(get_line_number, x)`: yield the line of every `Token`, and
recurse into the children of `Tree`s only (tuples and lists are not
descended). -/
def traverseLines : PyVal → List Nat
  | .vtok _ ln => [ln]
  | .vtree xs => traverseLinesL xs
  | _ => []
def traverseLinesL : PyL → List Nat
  | .nil => []
  | .cons x xs => traverseLines x ++ traverseLinesL xs
end

/-- Python `min` over a nonempty list (`0` on `[]`, which `explore_data`
never produces since every entity has its id token). -/
def pyMinL : List Nat → Nat
  | [] => 0
  | x :: xs => xs.foldl Nat.min x

/-- Python `max` over a nonempty list. -/
def pyMaxL : List Nat → Nat
  | [] => 0
  | x :: xs => xs.foldl Nat.max x

/-- One value of the `objects` index built by `explore_data`. -/
structure IndexedObj where
  body : Body
  refs : List String
  lines : Nat × Nat
  deriving DecidableEq

/-- `DuplicateNameError(filecontent, name, linenumbers)`; its `asdict`
reports `lineno = linenumbers[0]`. -/
structure DupNameErr where
  name : String
  linenos : Nat × Nat
  deriving DecidableEq

/-- The id-indexed data dictionary (`objects` in `explore_data`), as an
insertion-ordered association list, matching Python dict key order. -/
abbrev DDict := List (String × List IndexedObj)

/-- `explore_data`, threading the `objects` defaultdict: per entity, in
file order, compute the token lines, explode the record into `body` and
`refs`, and either fail on a duplicate id (`if objects[id]: raise ...`) or
append the new entry. -/
def exploreDataAux (objects : DDict) : List EntityInst → Except DupNameErr DDict
  | [] => .ok objects
  | e :: rest =>
    let lines := traverseLines (entityPy e)
    let id := e.idText
    let r := explodePy (transformRec e.record)
    let linesRange := (pyMinL lines, pyMaxL lines)
    match objects.lookup id with
    | some _ => .error ⟨id, linesRange⟩
    | none => exploreDataAux (objects ++ [(id, [⟨r.1, r.2, linesRange⟩])]) rest

/-- `explore_data` on the (transformed) data section. -/
def exploreData (ents : List EntityInst) : Except DupNameErr DDict :=
  exploreDataAux [] ents

/-! ## Reference collection, claim-side definitions

`specRefsRec` is the claim C1 as stated (every `Ref` occurrence, typed
wrappers included); `collectedRefsRec` is what the code actually collects
(typed wrappers drop their inner parameter; HEX digits of binary literals
are residual tokens and are collected too). -/

mutual
def specRefsP : Param → List String
  | .typed _ inner => specRefsP inner
  | .pid t _ => [t]
  | .plist ps => specRefsPL ps
  | _ => []
def specRefsPL : ParamL → List String
  | .nil => []
  | .cons p ps => specRefsP p ++ specRefsPL ps
end

def specRefsSimpleRec : SimpleRec → List String
  | ⟨_, none⟩ => []
  | ⟨_, some ps⟩ => specRefsPL ps

/-- The refs sequence the claim describes: every `Ref(id)` inside the
body, in order of appearance, across nested lists, typed wrappers and
complex-record members. -/
def specRefsRec : RecBody → List String
  | .simple r => specRefsSimpleRec r
  | .complex rs => rs.flatMap specRefsSimpleRec

mutual
def collectedRefsP : Param → List String
  | .typed _ _ => []
  | .pid t _ => [t]
  | .pbinary hx => hx.map Prod.fst
  | .plist ps => collectedRefsPL ps
  | _ => []
def collectedRefsPL : ParamL → List String
  | .nil => []
  | .cons p ps => collectedRefsP p ++ collectedRefsPL ps
end

def collectedRefsSimpleRec : SimpleRec → List String
  | ⟨_, none⟩ => []
  | ⟨_, some ps⟩ => collectedRefsPL ps

/-- The refs sequence the code computes: `Ref` occurrences in order with
duplicates, except those inside a typed wrapper (discarded), plus the hex
digit tokens of binary literals. -/
def collectedRefsRec : RecBody → List String
  | .simple r => collectedRefsSimpleRec r
  | .complex rs => rs.flatMap collectedRefsSimpleRec

/-! ## The Preprocessor (`parse`, lines 330-341)

Two regex passes: `re.sub(r"/\*[\s\S]*?\*/", replace_fn, ...)` blanks every
non-newline character of each block comment, then
`re.sub(r"(#[\d]+|'[^']*')|([\r\t\f\v ]*)", r"\g<1>", ...)` keeps id and
string literal spans verbatim and deletes every other run of non-newline
whitespace.  Both are embedded as left-to-right scans, which is exactly
the regex engine's leftmost-match behaviour for these patterns.  The
recursions are fuelled by the input length; every step consumes at least
one character per unit of fuel, so the fuel never runs out. -/

def blankChar (c : Char) : Char := if c = '\n' then c else ' '

/-- Split off the shortest prefix ending in the two characters `*/`
(the non-greedy `[\s\S]*?\*/`): returns the interior and the remainder. -/
def findClose : List Char → Option (List Char × List Char)
  | '*' :: '/' :: rest => some ([], rest)
  | c :: rest => (findClose rest).map (fun p => (c :: p.1, p.2))
  | [] => none

def blankCommentsAux : Nat → List Char → List Char
  | 0, l => l
  | _ + 1, [] => []
  | f + 1, '/' :: '*' :: rest =>
    (match findClose rest with
     | some (interior, after) =>
        ' ' :: ' ' :: (interior.map blankChar ++ (' ' :: ' ' :: blankCommentsAux f after))
     | none => '/' :: blankCommentsAux f ('*' :: rest))
  | f + 1, c :: rest => c :: blankCommentsAux f rest

/-- First preprocessor pass: blank block comments, newlines kept. -/
def blankComments (l : List Char) : List Char := blankCommentsAux l.length l

/-- The character class `[\r\t\f\v ]` (non-newline whitespace). -/
def pyWsChars : List Char := [' ', '\t', '\r', '\x0c', '\x0b']

def stripWsAux : Nat → List Char → List Char
  | 0, l => l
  | _ + 1, [] => []
  | f + 1, '#' :: rest =>
    let digits := rest.takeWhile Char.isDigit
    if digits.isEmpty then '#' :: stripWsAux f rest
    else '#' :: (digits ++ stripWsAux f (rest.dropWhile Char.isDigit))
  | f + 1, '\x27' :: rest =>
    if '\x27' ∈ rest then
      '\x27' :: (rest.takeWhile (· ≠ '\x27') ++
        ('\x27' :: stripWsAux f ((rest.dropWhile (· ≠ '\x27')).tail)))
    else '\x27' :: stripWsAux f rest
  | f + 1, c :: rest =>
    if c ∈ pyWsChars then stripWsAux f rest else c :: stripWsAux f rest

/-- Second preprocessor pass: keep `#<digits>` and `'...'` spans verbatim,
delete all other non-newline whitespace. -/
def stripWs (l : List Char) : List Char := stripWsAux l.length l

/-- The whole Preprocessor: comment blanking then whitespace removal. -/
def preprocess (s : String) : String := ⟨stripWs (blankComments s.data)⟩

/-- Number of newline characters (the line count minus one). -/
def nlCount (l : List Char) : Nat := l.count '\n'

/-! ## Title rendering (`add_node`, lines 384-433) -/

mutual
/-- `to_str(object)`: a string yields itself; any other (list) value
yields a parenthesised comma-joined rendering of its members, an empty
member rendering as two apostrophes. -/
def toStr : Body → String
  | .bstr s => s
  | .blst xs => "(" ++ String.intercalate ", " (toStrL xs) ++ ")"
def toStrL : BodyL → List String
  | .nil => []
  | .cons b bs =>
    let s := toStr b
    (if s = "" then "\x27\x27" else s) :: toStrL bs
end

def SPLIT_STRING_SIZE : Nat := 100

def pyWrapAux : Nat → List Char → List String
  | 0, _ => []
  | _ + 1, [] => []
  | f + 1, c :: rest => ⟨(c :: rest).take SPLIT_STRING_SIZE⟩ :: pyWrapAux f ((c :: rest).drop SPLIT_STRING_SIZE)

/-- Modelled from the spec: `textwrap.wrap(name, SPLIT_STRING_SIZE)` —
titles are "soft-wrapped to a fixed line width (≈100 characters)".  Exact
for whitespace-free text (chunks of at most 100 characters, none for
empty text); stdlib whitespace collapsing is not modelled and no theorem
rests on titles longer than 100 characters or containing whitespace. -/
def pyWrap (s : String) : List String := pyWrapAux s.data.length s.data

def ENTRY_NODE_COLOR : String := "indigo"
def FAILURE_NODE_COLOR : String := "red"

def NODE_COLOR : List (String × String) :=
  [("CARTESIAN_POINT", "lightgrey"),
   ("PCURVE", "orange"),
   ("B_SPLINE_CURVE_WITH_KNOTS", "palegreen"),
   ("B_SPLINE_SURFACE_WITH_KNOTS", "darkkhaki"),
   ("IFCCARTESIANPOINT", "lightgrey"),
   ("IFCPOLYLINE", "orange"),
   ("IFCSHAPEREPRESENTATION", "darkkhaki")]

/-- The `node_color` variable of `add_node`: a Python string, or the empty
dict that `simple_entity` yields for a keyword outside the color table. -/
inductive ColV where
  | s (v : String)
  | emptyDict
  deriving DecidableEq

def colLen : ColV → Nat
  | .s v => v.length
  | .emptyDict => 0

def colVStr : ColV → String
  | .s v => v
  | .emptyDict => ""

/-- `simple_entity(body, color)`: render `keyword` plus its wrapped
parameter text, and resolve the color by table lookup when none is set. -/
def simpleEntity (body : BodyL) (color : ColV) : String × ColV :=
  match body with
  | .cons (.bstr kw) rest =>
    let name0 : String :=
      match rest with
      | .nil => "()"
      | .cons b _ => toStr b
    let name := String.intercalate "<br>" (pyWrap (kw ++ name0))
    let color :=
      if colLen color = 0 then
        match NODE_COLOR.lookup kw with
        | some c => ColV.s c
        | none => ColV.emptyDict
      else color
    (name, color)
  | _ => ("", color)

/-- The member loop of the complex-record branch of `add_node`. -/
def recsFold : BodyL → String × ColV → String × ColV
  | .nil, acc => acc
  | .cons x recs, acc =>
    let p := match x with
             | .blst elems => simpleEntity elems acc.2
             | .bstr _ => ("", acc.2)
    recsFold recs (acc.1 ++ (if acc.1.length > 0 then "<br>" else "") ++ p.1, p.2)

/-! ## The graph structures -/

structure NodeAttr where
  title : String
  color : Option String
  deriving DecidableEq

/-- The pyvis `Network`, reduced to its observable construction sequence:
insertion-ordered nodes with title and optional color, and the directed
edge list (duplicates kept). -/
structure Net where
  nodes : List (String × NodeAttr)
  edges : List (String × String)
  deriving DecidableEq

def emptyNet : Net := ⟨[], []⟩

/-- `data[node]` on the defaultdict built by `explore_data`: looking up a
missing key inserts an empty entry (auto-vivification). -/
def ddGet (d : DDict) (k : String) : List IndexedObj × DDict :=
  match d.lookup k with
  | some v => (v, d)
  | none => ([], d ++ [(k, [])])

/-- `add_node(net, node, data, force_color)`: pick the forced color, else
the entry color on an empty net, else none; add the node; render its
title (and resolve its color) from `data[node]`, returning the possibly
vivified data dict. -/
def addNode (net : Net) (node : String) (data : DDict) (force_color : String) :
    Net × DDict :=
  let node_color : ColV :=
    if force_color.length > 0 then .s force_color
    else if net.nodes.length = 0 then .s ENTRY_NODE_COLOR
    else .s ""
  let r := ddGet data node
  let tc := r.1.foldl (fun (acc : String × ColV) obj =>
      match obj.body with
      | .blst (.cons (.bstr kw) rest) => simpleEntity (.cons (.bstr kw) rest) acc.2
      | .blst (.cons (.blst recs) _) => recsFold recs acc
      | _ => acc) ("", node_color)
  let attr : NodeAttr := ⟨tc.1, if colLen tc.2 > 0 then some (colVStr tc.2) else none⟩
  ({ nodes := net.nodes ++ [(node, attr)], edges := net.edges }, r.2)

/-! ## `make_graph_complete` (lines 439-449)

Both loops iterate the data dict itself.  CPython's dict iterator raises
`RuntimeError: dictionary changed size during iteration` at its next step
once the dict's size has changed, including the final step that would
report exhaustion — and `add_node` on a missing key does change the size. -/

inductive PyRuntimeErr where
  | dictChangedSize
  deriving DecidableEq

/-- `for node in data: add_node(net, node, data)` with the iterator's
size check after each step. -/
def completeNodesLoop (orig : Nat) (net : Net) (data : DDict) :
    List String → Except PyRuntimeErr (Net × DDict)
  | [] => .ok (net, data)
  | k :: ks =>
    let r := addNode net k data ""
    if r.2.length ≠ orig then .error .dictChangedSize
    else completeNodesLoop orig r.1 r.2 ks

/-- The innermost loop of the edge pass: for each ref of one object, add
a failure-colored node if the ref is dangling, then the edge. -/
def edgeRefsLoop (node : String) (net : Net) (data : DDict) :
    List String → Net × DDict
  | [] => (net, data)
  | ref :: rs =>
    let r := if (data.lookup ref).isSome then (net, data)
             else addNode net ref data FAILURE_NODE_COLOR
    edgeRefsLoop node ⟨r.1.nodes, r.1.edges ++ [(node, ref)]⟩ r.2 rs

def edgeObjsLoop (node : String) (net : Net) (data : DDict) :
    List IndexedObj → Net × DDict
  | [] => (net, data)
  | obj :: objs =>
    let r := edgeRefsLoop node net data obj.refs
    edgeObjsLoop node r.1 r.2 objs

/-- `for node in data: for object in data[node]: for ref in ...` with the
iterator's size check after each outer step. -/
def completeEdgesLoop (orig : Nat) (net : Net) (data : DDict) :
    List String → Except PyRuntimeErr (Net × DDict)
  | [] => .ok (net, data)
  | k :: ks =>
    let r := edgeObjsLoop k net data ((data.lookup k).getD [])
    if r.2.length ≠ orig then .error .dictChangedSize
    else completeEdgesLoop orig r.1 r.2 ks

/-- `make_graph_complete(net, model)`. -/
def makeGraphComplete (net : Net) (data : DDict) :
    Except PyRuntimeErr (Net × DDict) :=
  match completeNodesLoop data.length net data (data.map Prod.fst) with
  | .error e => .error e
  | .ok r => completeEdgesLoop r.2.length r.1 r.2 (r.2.map Prod.fst)

/-! ## `make_graph_entity` (lines 455-485) -/

/-- Python set insertion (deterministically modelled as an append-if-new
list; the claims settled below depend only on the resulting membership). -/
def setInsert (l : List String) (x : String) : List String :=
  if x ∈ l then l else l ++ [x]

def setInsertAll (l : List String) (xs : List String) : List String :=
  xs.foldl setInsert l

/-- `nodes[key].add(ref)` for each ref, on the visited adjacency map. -/
def addValRefs : List (String × List String) → String → List String →
    List (String × List String)
  | [], _, _ => []
  | (k, v) :: rest, key, refs =>
    if k = key then (k, setInsertAll v refs) :: rest
    else (k, v) :: addValRefs rest key refs

/-- The traversal state: the net, the (mutable, defaultdict) data, the
visited adjacency map `nodes`, and the `new_entities` set of the batch. -/
structure RSt where
  net : Net
  data : DDict
  nodes : List (String × List String)
  fresh : List String
  deriving DecidableEq

/-- One `curr_entity` iteration of the traversal loop: skip if visited;
vivify `nodes[curr_entity]`; indexed entities are added with the default
color and their refs enqueued, unknown ids are added failure-colored and
not expanded. -/
def processEntity (st : RSt) (curr : String) : RSt :=
  if (st.nodes.lookup curr).isSome then st
  else
    let nodes := st.nodes ++ [(curr, [])]
    if (st.data.lookup curr).isSome then
      let r := addNode st.net curr st.data ""
      let refs := ((r.2.lookup curr).getD []).flatMap IndexedObj.refs
      { net := r.1, data := r.2, nodes := addValRefs nodes curr refs,
        fresh := setInsertAll st.fresh refs }
    else
      let r := addNode st.net curr st.data FAILURE_NODE_COLOR
      { net := r.1, data := r.2, nodes := nodes, fresh := st.fresh }

/-- One pass of the `while` body over the current `entities` set. -/
def rootedBatch (st : RSt) (front : List String) : RSt :=
  front.foldl processEntity { st with fresh := [] }

/-- The `while len(entities) > 0` loop, fuelled; `rootedFuel` below is
enough fuel for every input (claim C4). -/
def rootedLoop : Nat → RSt → List String → RSt × List String
  | 0, st, front => (st, front)
  | f + 1, st, front =>
    if front.isEmpty then (st, front)
    else
      let st' := rootedBatch st front
      rootedLoop f st' st'.fresh

/-- Every id appearing in some refs list of the data dict. -/
def allRefs (d : DDict) : List String :=
  d.flatMap (fun kv => kv.2.flatMap IndexedObj.refs)

def rootedFuel (d : DDict) : Nat := (allRefs d).length + 3

/-- The final `for node in nodes: for ref in nodes[node]: add_edge`. -/
def emitEdges (net : Net) : List (String × List String) → Net
  | [] => net
  | (k, refs) :: rest =>
    emitEdges ⟨net.nodes, net.edges ++ refs.map (fun r => (k, r))⟩ rest

/-- `make_graph_entity(net, model, entity)`. -/
def makeGraphEntity (net : Net) (data : DDict) (entity : String) :
    Net × DDict :=
  let r := rootedLoop (rootedFuel data) ⟨net, data, [], []⟩ [entity]
  (emitEdges r.1.net r.1.nodes, r.1.data)

/-! ## `SyntaxError` and the parse pipeline (lines 140-170, 344-351) -/

/-- The fields of the lark exception (`UnexpectedToken` /
`UnexpectedCharacters`) that `SyntaxError.asdict` reads.  lark is an
external library; per the spec it reports the first token or character
that cannot continue any production, with 1-based line/column and the set
of acceptable terminals. -/
structure LarkExc where
  isUnexpectedToken : Bool
  line : Nat
  column : Nat
  tokenType : String
  tokenValue : String
  accepts : List String
  deriving DecidableEq

/-- Lexicographic string order by code point (Python `sorted` on str). -/
def strLeChars : List Char → List Char → Bool
  | [], _ => true
  | _ :: _, [] => false
  | a :: as, b :: bs => if a = b then strLeChars as bs else decide (a < b)

def pyStrLe (a b : String) : Bool := strLeChars a.data b.data

/-- Stable insertion into an ascending list (an element goes before the
first one it compares `≤` to, so equal elements keep their order, as
Python's stable `sorted` does). -/
def insSorted (x : String) : List String → List String
  | [] => [x]
  | y :: ys => if pyStrLe x y then x :: y :: ys else y :: insSorted x ys

/-- Python `sorted` on a list of strings (ascending by code point). -/
def pySorted : List String → List String
  | [] => []
  | x :: xs => insSorted x (pySorted xs)

def segAt : List Char → List Char → Bool
  | [], _ => true
  | _ :: _, [] => false
  | a :: as, b :: bs => a = b && segAt as bs

/-- Whether `n` occurs as a contiguous segment of `l` (Python `in` on
strings). -/
def hasSeg (n : List Char) : List Char → Bool
  | [] => segAt n []
  | c :: rest => segAt n (c :: rest) || hasSeg n rest

def containsAnon (s : String) : Bool := hasSeg "__ANON".data s.data

def pyLower (s : String) : String := ⟨s.data.map Char.toLower⟩

/-- Python `text.split("\n")`. -/
def splitNl : List Char → List (List Char)
  | [] => [[]]
  | '\n' :: rest => [] :: splitNl rest
  | c :: rest =>
    match splitNl rest with
    | [] => [[c]]
    | g :: gs => (c :: g) :: gs

/-- The record `SyntaxError.asdict` builds. -/
structure SynDict where
  typeTag : String
  lineno : Nat
  column : Nat
  found_type : String
  found_value : String
  expected : List String
  lineText : String
  deriving DecidableEq

/-- `SyntaxError.asdict` (without the formatted message). -/
def synAsdict (filecontent : String) (e : LarkExc) : SynDict :=
  { typeTag := if e.isUnexpectedToken then "unexpected_token" else "unexpected_character"
    lineno := e.line
    column := e.column
    found_type := pyLower e.tokenType
    found_value := e.tokenValue
    expected := pySorted (e.accepts.filter (fun x => !(containsAnon x)))
    lineText := ⟨(splitNl filecontent.data).getD (e.line - 1) []⟩ }

inductive ParseErr where
  | syn (d : SynDict)
  | dup (e : DupNameErr)
  deriving DecidableEq

/-- Modelled from the spec: the fail-fast `parse` pipeline.  The lark LALR
engine is external code, abstracted as its outcome — either the parsed
data-section entities, or the exception of the first failure; `parse`
wraps the exception in `SyntaxError` and raises, and on success hands the
transformed tree to the Entity Indexer. -/
def parsePipeline (filecontent : String)
    (engine : Except LarkExc (List EntityInst)) : Except ParseErr DDict :=
  match engine with
  | .error e => .error (.syn (synAsdict filecontent e))
  | .ok ents =>
    match exploreData ents with
    | .error d => .error (.dup d)
    | .ok objects => .ok objects

/-- Decode-then-render for one literal parameter: the transformer's
decoding composed with `explode_object`'s stringification and the title
renderer `to_str` (claim C9). -/
def renderParam (p : Param) : String := toStr (explodePy (transformParam p)).1

/-- The enum token text `.KW.` as the grammar parses it. -/
def enumParamOfText (s : String) : Param := .penum ⟨(s.data.drop 1).dropLast⟩

/-- A string token text `'...'` as the grammar parses it (the quoted
content as its child tokens; their join is the content). -/
def stringParamOfText (s : String) : Param := .pstr [⟨(s.data.drop 1).dropLast⟩]

/-- A binary token text `"rHEX..."` as the grammar parses it: the radix
digit is an anonymous token (filtered), the HEX digits are kept. -/
def binaryParamOfText (s : String) : Param :=
  .pbinary (((s.data.drop 2).dropLast).map (fun c => (⟨[c]⟩, 0)))

/-! ## Concrete fixtures (data sections of the spec's testable properties)

Each `data*` dictionary is exactly what `exploreData` produces on the
corresponding entity list; the claim theorems below state that equality
explicitly where they use a fixture. -/

/-- `#1=FOO(#2);` with no `#2` entity — the dangling-reference example. -/
def entDangling : EntityInst :=
  ⟨"#1", 1, .simple ⟨"FOO", some (.cons (.pid "#2" 1) .nil)⟩⟩

def dataDangling : DDict :=
  [("#1", [⟨.blst (.cons (.bstr "FOO") (.cons (.blst (.cons (.bstr "#2") .nil)) .nil)),
           ["#2"], (1, 1)⟩])]

/-- `#1=FOO(#2);` / `#2=BAR(#1);` — the reference cycle. -/
def entCycle1 : EntityInst :=
  ⟨"#1", 1, .simple ⟨"FOO", some (.cons (.pid "#2" 1) .nil)⟩⟩

def entCycle2 : EntityInst :=
  ⟨"#2", 2, .simple ⟨"BAR", some (.cons (.pid "#1" 2) .nil)⟩⟩

def dataCycle : DDict :=
  [("#1", [⟨.blst (.cons (.bstr "FOO") (.cons (.blst (.cons (.bstr "#2") .nil)) .nil)),
           ["#2"], (1, 1)⟩]),
   ("#2", [⟨.blst (.cons (.bstr "BAR") (.cons (.blst (.cons (.bstr "#1") .nil)) .nil)),
           ["#1"], (2, 2)⟩])]

/-- `#1=CARTESIAN_POINT();` — an entity whose keyword has a color-table
entry, for the entry-precedence property. -/
def entCartesian : EntityInst := ⟨"#1", 1, .simple ⟨"CARTESIAN_POINT", none⟩⟩

def dataCartesian : DDict :=
  [("#1", [⟨.blst (.cons (.bstr "CARTESIAN_POINT") .nil), [], (1, 1)⟩])]

/-- `#1=FOO();` then `#1=BAR();` — the duplicate-name example. -/
def entDupA : EntityInst := ⟨"#1", 1, .simple ⟨"FOO", none⟩⟩

def entDupB : EntityInst := ⟨"#1", 2, .simple ⟨"BAR", none⟩⟩

/-- `FOO(BAR(#2))` — a reference inside a typed parameter. -/
def recTypedRef : RecBody :=
  .simple ⟨"FOO", some (.cons (.typed "BAR" (.pid "#2" 1)) .nil)⟩

/-- A decimal digit character (code points 48-57). -/
def isDigitCh (c : Char) : Bool := decide (48 ≤ c.toNat) && decide (c.toNat ≤ 57)

/-- Canonical digit text: nonempty, all digits, no leading zero except
for `0` itself.  Exactly the texts Python `str(int(text))` reproduces. -/
def canonicalDigits (l : List Char) : Bool :=
  !l.isEmpty && l.all isDigitCh && (l.head? != some '0' || l == ['0'])

/-- Canonical INT token text: canonical digits, optionally preceded by a
minus sign (not on zero; a leading `+` is never reproduced). -/
def canonicalIntText (s : String) : Bool :=
  if s.data.head? = some '-' then canonicalDigits s.data.tail && s.data.tail != ['0']
  else canonicalDigits s.data

/-- Every reference of every indexed entity has an entry in the index:
the model has no dangling references. -/
def noDangling (d : DDict) : Prop :=
  ∀ kv ∈ d, ∀ obj ∈ kv.2, ∀ r ∈ obj.refs, r ∈ d.map Prod.fst

instance (d : DDict) : Decidable (noDangling d) := by
  unfold noDangling
  infer_instance

/-! # Theorems

First general-purpose helper lemmas, then one theorem (with witness or
counterexample where applicable) per claim. -/

/-! ## Helpers: association-list lookup -/

theorem lookup_isSome_of_mem {β : Type} (l : List (String × β)) (k : String)
    (h : k ∈ l.map Prod.fst) : (l.lookup k).isSome := by
  induction l with
  | nil => simp at h
  | cons a l ih =>
    obtain ⟨ka, va⟩ := a
    by_cases hk : k = ka
    · subst hk; simp [List.lookup]
    · simp only [List.map, List.mem_cons] at h
      rcases h with h | h
      · exact absurd h hk
      · have hbeq : (k == ka) = false := by simp [hk]
        simp only [List.lookup, hbeq]
        exact ih h

theorem lookup_none_of_not_mem {β : Type} (l : List (String × β)) (k : String)
    (h : k ∉ l.map Prod.fst) : l.lookup k = none := by
  induction l with
  | nil => rfl
  | cons a l ih =>
    obtain ⟨ka, va⟩ := a
    simp only [List.map, List.mem_cons, not_or] at h
    have hbeq : (k == ka) = false := by simp [h.1]
    simp only [List.lookup, hbeq]
    exact ih h.2

theorem mem_of_lookup_eq_some {β : Type} (l : List (String × β)) (k : String) (v : β)
    (h : l.lookup k = some v) : (k, v) ∈ l := by
  induction l with
  | nil => simp [List.lookup] at h
  | cons a l ih =>
    obtain ⟨ka, va⟩ := a
    by_cases hk : k = ka
    · subst hk
      have hv : va = v := by simpa [List.lookup] using h
      simp [hv]
    · have hbeq : (k == ka) = false := by simp [hk]
      simp only [List.lookup, hbeq] at h
      simp [ih h]

/-! ## Helpers: reference collection (C1) -/

theorem refs_pyTokList (hx : List (String × Nat)) :
    (explodePyL (pyTokList hx)).2 = hx.map Prod.fst := by
  induction hx with
  | nil => rfl
  | cons h t ih => obtain ⟨s, ln⟩ := h; simp [pyTokList, explodePyL, explodePy, ih]

mutual
theorem refs_transformP (p : Param) :
    (explodePy (transformParam p)).2 = collectedRefsP p := by
  cases p with
  | typed kw inner => rfl
  | typedEmpty => rfl
  | pstr toks => rfl
  | pnone => rfl
  | pomit => rfl
  | pint t => rfl
  | preal t => rfl
  | penum kw => rfl
  | pid t ln => rfl
  | pbinary hx => simp [transformParam, explodePy, collectedRefsP, refs_pyTokList]
  | plist ps => simpa [transformParam, explodePy, collectedRefsP] using refs_transformPs ps
theorem refs_transformPs (ps : ParamL) :
    (explodePyL (transformParams ps)).2 = collectedRefsPL ps := by
  cases ps with
  | nil => rfl
  | cons p ps =>
    simp [transformParams, explodePyL, collectedRefsPL, refs_transformP p, refs_transformPs ps]
end

theorem refs_transformSimpleRec (r : SimpleRec) :
    (explodePy (transformSimpleRec r)).2 = collectedRefsSimpleRec r := by
  obtain ⟨kw, ps⟩ := r
  cases ps with
  | none => rfl
  | some ps =>
    simp [transformSimpleRec, explodePy, explodePyL, collectedRefsSimpleRec, refs_transformPs]

theorem refs_pyLOfList_recs (rs : List SimpleRec) :
    (explodePyL (pyLOfList (rs.map transformSimpleRec))).2 =
      rs.flatMap collectedRefsSimpleRec := by
  induction rs with
  | nil => rfl
  | cons r rs ih => simp [pyLOfList, explodePyL, refs_transformSimpleRec, ih]

/-! ## Helpers: entity line collection (C2) -/

theorem traverseLines_transformRec (r : RecBody) : traverseLines (transformRec r) = [] := by
  cases r with
  | simple s => obtain ⟨kw, ps⟩ := s; cases ps <;> rfl
  | complex rs => rfl

theorem entity_lines (e : EntityInst) : traverseLines (entityPy e) = [e.idLine] := by
  simp [entityPy, traverseLines, traverseLinesL, traverseLines_transformRec]

theorem exploreDataAux_dup :
    ∀ (l1 : List EntityInst) (objects : DDict) (e : EntityInst) (l2 : List EntityInst),
      (objects.map Prod.fst ++ l1.map EntityInst.idText).Nodup →
      e.idText ∈ objects.map Prod.fst ++ l1.map EntityInst.idText →
      exploreDataAux objects (l1 ++ e :: l2) =
        .error ⟨e.idText, (e.idLine, e.idLine)⟩ := by
  intro l1
  induction l1 with
  | nil =>
    intro objects e l2 _ hmem
    simp only [List.map_nil, List.append_nil] at hmem
    have hs := lookup_isSome_of_mem objects e.idText hmem
    obtain ⟨v, hv⟩ := Option.isSome_iff_exists.mp hs
    simp [exploreDataAux, entity_lines, hv, pyMinL, pyMaxL]
  | cons a l1 ih =>
    intro objects e l2 hnd hmem
    have hanotin : a.idText ∉ objects.map Prod.fst := by
      intro hmem2
      have h2 := (List.nodup_append.mp hnd).2.2
      exact h2 hmem2 (by simp)
    have hnone := lookup_none_of_not_mem objects a.idText hanotin
    show exploreDataAux objects ((a :: l1) ++ e :: l2) = _
    simp only [List.cons_append, exploreDataAux, hnone, entity_lines]
    apply ih
    · simpa [List.append_assoc] using hnd
    · simpa [List.append_assoc] using hmem

/-! ## Claim C1 -/

/-- C1 counterexample: for the successfully parsed entity `#1=FOO(BAR(#2));`
the computed refs sequence is empty — the reference `#2` sits inside the
typed wrapper `BAR(...)`, whose inner parameter the canonicalizer discards
— whereas the claimed refs sequence (every `Ref(id)` inside the body,
typed wrappers included) is `["#2"]`.  So the claim as stated is false. -/
theorem c1_refs_claim_false :
    (explodePy (transformRec recTypedRef)).2 = [] ∧
    specRefsRec recTypedRef = ["#2"] ∧
    (explodePy (transformRec recTypedRef)).2 ≠ specRefsRec recTypedRef := by
  decide

/-- C1 (amended): for every successfully parsed entity instance, the refs
sequence computed by the Entity Indexer contains, in order of appearance
with duplicates kept, exactly the `Ref(id)` occurrences found inside the
entity's body across nested lists and complex-record members — except
those inside a typed wrapper, whose inner parameter is discarded during
canonicalization — and additionally the hex-digit tokens of binary
literals (which are not references). -/
theorem c1_refs_collected (r : RecBody) :
    (explodePy (transformRec r)).2 = collectedRefsRec r := by
  cases r with
  | simple s => simpa [transformRec, collectedRefsRec] using refs_transformSimpleRec s
  | complex rs =>
    simp [transformRec, collectedRefsRec, explodePy, explodePyL, refs_pyLOfList_recs]

/-! ## Claim C2 -/

/-- C2: in any data section whose earlier entities have pairwise distinct
ids, an entity whose id repeats one of them makes indexing raise a
Duplicate Name Error carrying that id and, as its first line number (the
`lineno` that `asdict` reports), the source line of the second
occurrence's id token; the `Except.error` result carries no partial
index, whatever entities follow. -/
theorem c2_duplicate_name (l1 : List EntityInst) (e : EntityInst) (l2 : List EntityInst)
    (hnodup : (l1.map EntityInst.idText).Nodup)
    (hdup : e.idText ∈ l1.map EntityInst.idText) :
    exploreData (l1 ++ e :: l2) = .error ⟨e.idText, (e.idLine, e.idLine)⟩ :=
  exploreDataAux_dup l1 [] e l2 (by simpa using hnodup) (by simpa using hdup)

/-- C2 witness: `#1=FOO();` on line 1 followed by `#1=BAR();` on line 2
raises the duplicate-name error with name `#1` and lineno 2. -/
theorem c2_duplicate_name_witness :
    exploreData [entDupA, entDupB] = .error ⟨"#1", (2, 2)⟩ :=
  c2_duplicate_name [entDupA] entDupB [] (by decide) (by decide)

/-! ## Helpers: the Preprocessor (C8) -/

theorem findClose_eq : ∀ (l a b : List Char), findClose l = some (a, b) → l = a ++ '*' :: '/' :: b := by
  intro l
  induction l using findClose.induct with
  | case1 rest => intro a b h; simp [findClose] at h; simp [← h.1, ← h.2]
  | case2 c rest hne ih =>
    intro a b h
    simp only [findClose, Option.map_eq_some'] at h
    obtain ⟨⟨a2, b2⟩, hf, heq⟩ := h
    simp only [Prod.ext_iff] at heq
    obtain ⟨ha, hb⟩ := heq
    subst ha hb
    simp [ih a2 b2 hf]
  | case3 => intro a b h; simp [findClose] at h

theorem count_map_blankChar (l : List Char) : (l.map blankChar).count '\n' = l.count '\n' := by
  induction l with
  | nil => rfl
  | cons c rest ih =>
    by_cases h : c = '\n' <;> simp [blankChar, h, List.count_cons, ih]

theorem nlCount_blankCommentsAux : ∀ (f : Nat) (l : List Char),
    (blankCommentsAux f l).count '\n' = l.count '\n' := by
  intro f l
  induction f, l using blankCommentsAux.induct with
  | case1 l => rfl
  | case2 f => rfl
  | case3 f rest interior after hfc ih =>
    have hrest := findClose_eq rest interior after hfc
    subst hrest
    simp [blankCommentsAux, hfc, List.count_cons, List.count_append, count_map_blankChar, ih]
  | case4 f rest hfc ih =>
    simp [blankCommentsAux, hfc, List.count_cons, ih]
  | case5 f c rest hne ih =>
    simp [blankCommentsAux, List.count_cons, ih]

theorem pyWs_ne_nl (c : Char) (h : c ∈ pyWsChars) : (c == '\n') = false := by
  simp [pyWsChars] at h
  rcases h with h|h|h|h|h <;> subst h <;> decide

theorem count_take_drop (p : Char → Bool) (l : List Char) :
    l.count '\n' = (l.takeWhile p).count '\n' + (l.dropWhile p).count '\n' := by
  conv_lhs => rw [← List.takeWhile_append_dropWhile p l]
  rw [List.count_append]

set_option maxRecDepth 2048 in
theorem dropWhile_quote : ∀ (rest : List Char), '\x27' ∈ rest →
    rest.dropWhile (· ≠ '\x27') = '\x27' :: (rest.dropWhile (· ≠ '\x27')).tail := by
  intro rest
  induction rest with
  | nil => intro h; simp at h
  | cons c tl ih =>
    intro h
    by_cases hc : c = '\x27'
    · subst hc
      rw [List.dropWhile_cons, if_neg (by decide)]
      rfl
    · have hm : '\x27' ∈ tl := by
        rcases List.mem_cons.mp h with h1 | h1
        · exact absurd h1.symm hc
        · exact h1
      rw [List.dropWhile_cons, if_pos (decide_eq_true hc)]
      exact ih hm

theorem nlCount_stripWsAux : ∀ (f : Nat) (l : List Char),
    (stripWsAux f l).count '\n' = l.count '\n' := by
  intro f l
  induction f, l using stripWsAux.induct with
  | case1 l => rfl
  | case2 f => rfl
  | case3 f rest digs hemp ih =>
    simp [stripWsAux, hemp, List.count_cons, ih]
  | case4 f rest digs hemp ih =>
    have h1 := count_take_drop Char.isDigit rest
    simp [stripWsAux, hemp, List.count_cons, List.count_append, ih]
    omega
  | case5 f rest hmem ih =>
    have h1 := count_take_drop (fun c => decide (c ≠ '\x27')) rest
    have hdq := dropWhile_quote rest hmem
    have h2 : List.count '\n' (rest.dropWhile (fun c => decide (c ≠ '\x27'))) =
        List.count '\n' ((rest.dropWhile (fun c => decide (c ≠ '\x27'))).tail) := by
      conv_lhs => rw [hdq]
      simp [List.count_cons]
    simp only [ne_eq, decide_not] at h1 h2 ih ⊢
    simp [stripWsAux, hmem, List.count_cons, List.count_append, ih]
    omega
  | case6 f rest hmem ih =>
    simp [stripWsAux, hmem, List.count_cons, ih]
  | case7 f c rest h1 h2 hws ih =>
    have := pyWs_ne_nl c hws
    simp [stripWsAux, hws, List.count_cons, ih, this]
  | case8 f c rest h1 h2 hws ih =>
    simp [stripWsAux, hws, List.count_cons, ih]

/-- C8 counterexample: the Preprocessor does not return text of identical
length — on `A ;` (no comments at all) it deletes the whitespace and
returns `A;`, one character shorter; and the characters of a block
comment are not merely blanked in the final output but removed outright
(`A/*x*/B` becomes `AB`). -/
theorem c8_preprocess_claim_false :
    preprocess "A ;" = "A;" ∧
    ¬ (preprocess "A ;").length = ("A ;" : String).length ∧
    preprocess "A/*x*/B" = "AB" := by decide

/-- C8 (amended): for every raw input text the Preprocessor preserves the
newline count (hence the line count): comment characters other than
newlines are blanked by the first pass and the blanks deleted by the
second, newlines are kept verbatim, and only non-newline whitespace
outside string and id literal spans is removed — so the output length
generally shrinks while the line structure is intact. -/
theorem c8_line_count_preserved (s : String) :
    nlCount (preprocess s).data = nlCount s.data := by
  show (stripWs (blankComments s.data)).count '\n' = s.data.count '\n'
  rw [stripWs, nlCount_stripWsAux, blankComments, nlCount_blankCommentsAux]

/-! ## Helpers: integer decode/print round trip (C9) -/

theorem char_digit_roundtrip (c : Char) (h : isDigitCh c = true) :
    Char.ofNat (48 + digVal c) = c := by
  simp [isDigitCh] at h
  have he : 48 + digVal c = c.toNat := by simp only [digVal]; omega
  rw [he, Char.ofNat_toNat]

theorem digVal_lt_10 (c : Char) (h : isDigitCh c = true) : digVal c < 10 := by
  simp [isDigitCh] at h
  simp only [digVal]
  omega

theorem digVal_pos (c : Char) (h : isDigitCh c = true) (hne : c ≠ '0') : 1 ≤ digVal c := by
  simp [isDigitCh] at h
  have h48 : c.toNat ≠ 48 := by
    intro heq
    apply hne
    rw [← Char.ofNat_toNat c, heq]
  simp only [digVal]
  omega

theorem foldl_digits_ge (l : List Char) : ∀ acc : Nat, 1 ≤ acc →
    1 ≤ l.foldl (fun a c => a * 10 + digVal c) acc := by
  induction l with
  | nil => intro acc h; simpa using h
  | cons c tl ih =>
    intro acc h
    have hm : acc * 1 ≤ acc * 10 := Nat.mul_le_mul_left acc (by omega)
    exact ih (acc * 10 + digVal c) (by omega)

theorem pyNatOfDigits_pos (c : Char) (l : List Char) (h : 1 ≤ digVal c) :
    1 ≤ pyNatOfDigits (c :: l) := by
  simpa [pyNatOfDigits] using foldl_digits_ge l (0 * 10 + digVal c) (by simpa using h)

theorem pyNatOfDigits_append (l : List Char) (c : Char) :
    pyNatOfDigits (l ++ [c]) = pyNatOfDigits l * 10 + digVal c := by
  simp [pyNatOfDigits, List.foldl_append]

theorem pyNatPrintAux_stable : ∀ (f g n : Nat), n < f → n < g →
    pyNatPrintAux f n = pyNatPrintAux g n := by
  intro f
  induction f with
  | zero => intro g n h; omega
  | succ f ih =>
    intro g n hf hg
    cases g with
    | zero => omega
    | succ g =>
      simp only [pyNatPrintAux]
      by_cases h10 : n < 10
      · simp [h10]
      · have hdiv : n / 10 < n := Nat.div_lt_self (by omega) (by omega)
        simp only [if_neg h10]
        rw [ih g (n / 10) (by omega) (by omega)]

theorem canonical_pos (ds : List Char) (h1 : canonicalDigits ds = true)
    (h2 : ds ≠ ['0']) : 1 ≤ pyNatOfDigits ds := by
  rcases ds with _ | ⟨d, tl⟩
  · simp [canonicalDigits] at h1
  · have hd : isDigitCh d = true := by
      simp [canonicalDigits] at h1
      exact h1.1.1
    have hd0 : d ≠ '0' := by
      simp [canonicalDigits] at h1
      rcases h1.2 with h | h
      · exact h
      · exact absurd (by simp [h.1, h.2]) h2
    exact pyNatOfDigits_pos d tl (digVal_pos d hd hd0)

theorem print_parse_digits : ∀ (l : List Char), canonicalDigits l = true →
    pyNatPrint (pyNatOfDigits l) = l := by
  intro l
  induction l using List.reverseRecOn with
  | nil => intro h; simp [canonicalDigits] at h
  | append_singleton init c ih =>
    intro h
    by_cases hinit : init = []
    · subst hinit
      have hc : isDigitCh c = true := by
        simp [canonicalDigits] at h
        exact h.1
      have hlt := digVal_lt_10 c hc
      have hv : pyNatOfDigits ([] ++ [c]) = digVal c := by simp [pyNatOfDigits]
      rw [hv, pyNatPrint]
      simp only [pyNatPrintAux]
      rw [if_pos hlt, char_digit_roundtrip c hc]
      simp
    · -- decompose canonicality of init ++ [c]
      have hall : init.all isDigitCh = true ∧ isDigitCh c = true := by
        simp [canonicalDigits] at h
        refine ⟨by simp only [List.all_eq_true]; exact h.1.1, h.1.2⟩
      have hhead : init.head? ≠ some '0' := by
        simp [canonicalDigits] at h
        rcases h.2 with h2 | h2
        · rcases init with _ | ⟨d, tl⟩
          · simp at hinit
          · simpa using h2
        · exfalso
          apply hinit
          have hlen := congrArg List.length h2
          simp at hlen
          exact hlen
      have hcanon : canonicalDigits init = true := by
        simp [canonicalDigits, hinit, List.all_eq_true]
        constructor
        · intro x hx
          have := hall.1
          simp [List.all_eq_true] at this
          exact this x hx
        · left
          simpa using hhead
      have hpos : 1 ≤ pyNatOfDigits init := by
        apply canonical_pos init hcanon
        intro h0
        rw [h0] at hhead
        simp at hhead
      have hd10 := digVal_lt_10 c hall.2
      have hsum := pyNatOfDigits_append init c
      have hge : 10 ≤ pyNatOfDigits (init ++ [c]) := by omega
      have hdiv : pyNatOfDigits (init ++ [c]) / 10 = pyNatOfDigits init := by omega
      have hmod : pyNatOfDigits (init ++ [c]) % 10 = digVal c := by omega
      simp only [pyNatPrint, pyNatPrintAux, if_neg (by omega : ¬ pyNatOfDigits (init ++ [c]) < 10)]
      rw [hdiv, hmod]
      rw [pyNatPrintAux_stable (pyNatOfDigits (init ++ [c])) (pyNatOfDigits init + 1)
            (pyNatOfDigits init) (by omega) (by omega)]
      rw [show pyNatPrintAux (pyNatOfDigits init + 1) (pyNatOfDigits init) = pyNatPrint (pyNatOfDigits init) from rfl]
      rw [ih hcanon, char_digit_roundtrip c hall.2]

theorem canonical_head_ne_plus (l : List Char) (h : canonicalDigits l = true) :
    l.head? ≠ some '+' := by
  rcases l with _ | ⟨d, tl⟩
  · simp
  · simp only [canonicalDigits, List.all_cons, Bool.and_eq_true] at h
    have hd : isDigitCh d = true := h.1.2.1
    intro hp
    simp only [List.head?_cons, Option.some.injEq] at hp
    rw [hp] at hd
    simp [isDigitCh] at hd

theorem print_parse_int (s : String) (h : canonicalIntText s = true) :
    pyIntStr (pyIntOfText s) = s := by
  apply String.ext
  by_cases hm : s.data.head? = some '-'
  · obtain ⟨ds, hds⟩ : ∃ ds, s.data = '-' :: ds := by
      rcases hsd : s.data with _ | ⟨c, ds⟩
      · rw [hsd] at hm; simp at hm
      · rw [hsd] at hm
        simp only [List.head?_cons, Option.some.injEq] at hm
        exact ⟨ds, by rw [hm]⟩
    rw [canonicalIntText, if_pos hm] at h
    simp only [Bool.and_eq_true, bne_iff_ne, ne_eq] at h
    rw [hds] at h
    simp only [List.tail_cons] at h
    have hpos := canonical_pos ds h.1 h.2
    obtain ⟨w, hw⟩ : ∃ w, pyNatOfDigits ds = w + 1 := ⟨pyNatOfDigits ds - 1, by omega⟩
    show (pyIntStr (pyIntOfTextL s.data)).data = s.data
    rw [pyIntOfTextL, if_pos hm, hds]
    simp only [List.tail_cons]
    rw [hw]
    have hneg : -(((w + 1 : Nat) : Int)) = Int.negSucc w := by
      rw [Int.negSucc_eq]
      push_cast
      ring
    rw [hneg]
    show ('-' :: pyNatPrint (w + 1)) = '-' :: ds
    rw [← hw, print_parse_digits ds h.1]
  · rw [canonicalIntText, if_neg hm] at h
    have hp := canonical_head_ne_plus s.data h
    show (pyIntStr (pyIntOfTextL s.data)).data = s.data
    rw [pyIntOfTextL, if_neg hm, if_neg hp]
    show pyNatPrint (pyNatOfDigits s.data) = s.data
    exact print_parse_digits s.data h

/-! ## Claim C9 -/

/-- C9 counterexample: decode-then-rerender does not reproduce the source
token text for enum, string, or binary literals: `.STEEL.` re-renders as
`STEEL` (the dots are grammar punctuation and are dropped), a quoted
string re-renders without its quotes, and a binary literal re-renders as
the parenthesised list of its hex-digit tokens. -/
theorem c9_roundtrip_claim_false :
    renderParam (enumParamOfText ".STEEL.") = "STEEL" ∧
    renderParam (enumParamOfText ".STEEL.") ≠ ".STEEL." ∧
    renderParam (stringParamOfText "\x27abc\x27") ≠ "\x27abc\x27" ∧
    renderParam (binaryParamOfText "\"2ABC\"") ≠ "\"2ABC\"" := by decide

/-- C9 (amended): decode-then-rerender through the title-rendering rules
reproduces the source text exactly for every ref token, and for every
integer token in canonical form (no leading `+`, no redundant leading
zeros, no `-0`); enum, string and binary tokens lose their source
decoration (see the counterexample), and real tokens are re-rendered
through float formatting, which is not asserted here. -/
theorem c9_literal_roundtrip (t s : String) (ln : Nat) (h : canonicalIntText s = true) :
    renderParam (.pid t ln) = t ∧ renderParam (.pint s) = s := by
  constructor
  · rfl
  · show toStr (explodePy (transformParam (.pint s))).1 = s
    have hr : toStr (explodePy (transformParam (.pint s))).1 = pyIntStr (pyIntOfText s) := rfl
    rw [hr]
    exact print_parse_int s h

/-- C9 witness: `#5` and `-42` both round-trip. -/
theorem c9_literal_roundtrip_witness :
    renderParam (.pid "#5" 1) = "#5" ∧ renderParam (.pint "-42") = "-42" :=
  c9_literal_roundtrip "#5" "-42" 1 (by decide)

/-! ## Claim C5 -/

/-- C5 (code bug): on the model of `#1=FOO(#2);` with no `#2` entity
(shown to be exactly what the Entity Indexer produces), complete-graph
building does not return a graph with a failure-colored `#2` node and one
edge — it hits CPython's RuntimeError: the dangling branch calls
`add_node`, whose `data[node]` read on the defaultdict inserts the
missing key while `for node in data` is iterating that very dict. -/
theorem c5_dangling_runtime_error :
    exploreData [entDangling] = .ok dataDangling ∧
    makeGraphComplete emptyNet dataDangling = .error .dictChangedSize := by decide

/-! ## Helpers: the rooted traversal loop (C3, C4, C6) -/

theorem rootedLoop_empty (f : Nat) (st : RSt) : rootedLoop f st [] = (st, []) := by
  cases f <;> simp [rootedLoop]

theorem rootedLoop_succ_cons (f : Nat) (st : RSt) (c : String) (front : List String) :
    rootedLoop (f + 1) st (c :: front) =
      rootedLoop f (rootedBatch st (c :: front)) (rootedBatch st (c :: front)).fresh := by
  simp [rootedLoop]

theorem c6_unknown_root (data : DDict) (root : String)
    (h : data.lookup root = none) :
    makeGraphEntity emptyNet data root =
      (⟨[(root, ⟨"", some FAILURE_NODE_COLOR⟩)], []⟩, data ++ [(root, [])]) := by
  have hdd : ddGet data root = ([], data ++ [(root, [])]) := by
    simp [ddGet, h]
  have haddn : addNode emptyNet root data FAILURE_NODE_COLOR =
      (⟨[(root, ⟨"", some FAILURE_NODE_COLOR⟩)], []⟩, data ++ [(root, [])]) := by
    simp [addNode, hdd, emptyNet, FAILURE_NODE_COLOR, colLen, colVStr]
    decide
  have hpe : processEntity ⟨emptyNet, data, [], []⟩ root =
      ⟨⟨[(root, ⟨"", some FAILURE_NODE_COLOR⟩)], []⟩, data ++ [(root, [])], [(root, [])], []⟩ := by
    simp [processEntity, h, haddn]
  have hbatch : rootedBatch ⟨emptyNet, data, [], []⟩ [root] =
      ⟨⟨[(root, ⟨"", some FAILURE_NODE_COLOR⟩)], []⟩, data ++ [(root, [])], [(root, [])], []⟩ := by
    simp [rootedBatch]
    exact hpe
  unfold makeGraphEntity
  rw [show rootedFuel data = ((allRefs data).length + 2) + 1 from rfl,
      rootedLoop_succ_cons, hbatch, rootedLoop_empty]
  simp [emitEdges]

/-! ## Claim C6 -/

/-- C6: for every model and root id with no entry in the index, the
rooted-reachability build returns (raising nothing — the defaultdict
lookup in `add_node` supplies an empty record list) a graph with exactly
one node, the root, colored failure, an empty title, and no edges; the
model's dict gains the vivified empty entry. -/
theorem c6_unknown_root_claim (data : DDict) (root : String)
    (h : data.lookup root = none) :
    makeGraphEntity emptyNet data root =
      (⟨[(root, ⟨"", some FAILURE_NODE_COLOR⟩)], []⟩, data ++ [(root, [])]) :=
  c6_unknown_root data root h

/-- C6 witness: rooted at the absent `#9`. -/
theorem c6_unknown_root_witness :
    makeGraphEntity emptyNet dataDangling "#9" =
      (⟨[("#9", ⟨"", some FAILURE_NODE_COLOR⟩)], []⟩, dataDangling ++ [("#9", [])]) :=
  c6_unknown_root_claim dataDangling "#9" (by decide)

/-! ## Helpers: graph building without dangling references (C3, C10) -/

theorem addNode_net_shape (net : Net) (k : String) (data : DDict) (fc : String) :
    ∃ attr, (addNode net k data fc).1 = ⟨net.nodes ++ [(k, attr)], net.edges⟩ :=
  ⟨_, rfl⟩

theorem addNode_indexed (net : Net) (k : String) (data : DDict) (fc : String)
    (h : (data.lookup k).isSome) :
    ∃ attr, addNode net k data fc = (⟨net.nodes ++ [(k, attr)], net.edges⟩, data) := by
  obtain ⟨attr, ha⟩ := addNode_net_shape net k data fc
  refine ⟨attr, ?_⟩
  have hd : (addNode net k data fc).2 = data := by
    obtain ⟨v, hv⟩ := Option.isSome_iff_exists.mp h
    simp [addNode, ddGet, hv]
  calc addNode net k data fc
      = ((addNode net k data fc).1, (addNode net k data fc).2) := rfl
    _ = (⟨net.nodes ++ [(k, attr)], net.edges⟩, data) := by rw [ha, hd]

theorem noDangling_lookup (d : DDict) (hnd : noDangling d) (k : String)
    (objs : List IndexedObj) (hk : d.lookup k = some objs) (obj : IndexedObj)
    (ho : obj ∈ objs) (r : String) (hr : r ∈ obj.refs) : (d.lookup r).isSome :=
  lookup_isSome_of_mem d r (hnd (k, objs) (mem_of_lookup_eq_some d k objs hk) obj ho r hr)

theorem completeNodesLoop_ok (data : DDict) :
    ∀ (ks : List String) (net : Net), (∀ k ∈ ks, (data.lookup k).isSome) →
    ∃ ext, completeNodesLoop data.length net data ks =
      .ok (⟨net.nodes ++ ext, net.edges⟩, data) := by
  intro ks
  induction ks with
  | nil => intro net _; exact ⟨[], by simp [completeNodesLoop]⟩
  | cons k ks ih =>
    intro net hks
    obtain ⟨attr, haddn⟩ := addNode_indexed net k data "" (hks k (by simp))
    obtain ⟨ext, hext⟩ := ih ⟨net.nodes ++ [(k, attr)], net.edges⟩
      (fun x hx => hks x (by simp [hx]))
    refine ⟨(k, attr) :: ext, ?_⟩
    simp [completeNodesLoop, haddn, hext]

theorem edgeRefsLoop_ok (data : DDict) (node : String) :
    ∀ (refs : List String) (net : Net), (∀ r ∈ refs, (data.lookup r).isSome) →
    ∃ E, edgeRefsLoop node net data refs = (⟨net.nodes, net.edges ++ E⟩, data) := by
  intro refs
  induction refs with
  | nil => intro net _; exact ⟨[], by simp [edgeRefsLoop]⟩
  | cons r rs ih =>
    intro net hrs
    have hr : (data.lookup r).isSome = true := hrs r (by simp)
    obtain ⟨E, hE⟩ := ih ⟨net.nodes, net.edges ++ [(node, r)]⟩ (fun x hx => hrs x (by simp [hx]))
    refine ⟨(node, r) :: E, ?_⟩
    simp only [edgeRefsLoop, hr, if_pos]
    rw [hE]
    simp

theorem edgeObjsLoop_ok (data : DDict) (node : String) (hnd : noDangling data)
    (objs0 : List IndexedObj) (hobjs : data.lookup node = some objs0) :
    ∀ (objs : List IndexedObj) (net : Net), (∀ o ∈ objs, o ∈ objs0) →
    ∃ E, edgeObjsLoop node net data objs = (⟨net.nodes, net.edges ++ E⟩, data) := by
  intro objs
  induction objs with
  | nil => intro net _; exact ⟨[], by simp [edgeObjsLoop]⟩
  | cons o os ih =>
    intro net hos
    obtain ⟨E1, hE1⟩ := edgeRefsLoop_ok data node o.refs net
      (fun r hr => noDangling_lookup data hnd node objs0 hobjs o (hos o (by simp)) r hr)
    obtain ⟨E2, hE2⟩ := ih ⟨net.nodes, net.edges ++ E1⟩ (fun x hx => hos x (by simp [hx]))
    refine ⟨E1 ++ E2, ?_⟩
    simp only [edgeObjsLoop, hE1]
    rw [hE2]
    simp

theorem completeEdgesLoop_ok (data : DDict) (hnd : noDangling data) :
    ∀ (ks : List String) (net : Net),
    ∃ E, completeEdgesLoop data.length net data ks = .ok (⟨net.nodes, net.edges ++ E⟩, data) := by
  intro ks
  induction ks with
  | nil => intro net; exact ⟨[], by simp [completeEdgesLoop]⟩
  | cons k ks ih =>
    intro net
    rcases hk : data.lookup k with _ | objs
    · obtain ⟨E, hE⟩ := ih net
      refine ⟨E, ?_⟩
      simp only [completeEdgesLoop, hk, Option.getD_none]
      have h0 : edgeObjsLoop k net data [] = (net, data) := by simp [edgeObjsLoop]
      rw [h0]
      simp [hE]
    · obtain ⟨E1, hE1⟩ := edgeObjsLoop_ok data k hnd objs hk objs net (fun o ho => ho)
      obtain ⟨E2, hE2⟩ := ih ⟨net.nodes, net.edges ++ E1⟩
      refine ⟨E1 ++ E2, ?_⟩
      simp only [completeEdgesLoop, hk, Option.getD_some, hE1]
      rw [hE2]
      simp

theorem setInsert_subset_keys (S : List String) (l : List String) (x : String)
    (hl : ∀ y ∈ l, y ∈ S) (hx : x ∈ S) : ∀ y ∈ setInsert l x, y ∈ S := by
  intro y hy
  unfold setInsert at hy
  by_cases hmem : x ∈ l
  · rw [if_pos hmem] at hy; exact hl y hy
  · rw [if_neg hmem] at hy
    rcases List.mem_append.mp hy with h | h
    · exact hl y h
    · simp at h; subst h; exact hx

theorem setInsertAll_subset_keys (S : List String) :
    ∀ (xs l : List String), (∀ y ∈ l, y ∈ S) → (∀ x ∈ xs, x ∈ S) →
    ∀ y ∈ setInsertAll l xs, y ∈ S := by
  intro xs
  induction xs with
  | nil => intro l hl _ y hy; exact hl y hy
  | cons x xs ih =>
    intro l hl hxs y hy
    exact ih (setInsert l x) (setInsert_subset_keys S l x hl (hxs x (by simp)))
      (fun z hz => hxs z (by simp [hz])) y hy

theorem processEntity_data (data0 : DDict) (hnd : noDangling data0) (st : RSt) (curr : String)
    (hdata : st.data = data0) (hfresh : ∀ x ∈ st.fresh, x ∈ data0.map Prod.fst)
    (hcurr : curr ∈ data0.map Prod.fst) :
    (processEntity st curr).data = data0 ∧
    ∀ x ∈ (processEntity st curr).fresh, x ∈ data0.map Prod.fst := by
  by_cases hvis : (st.nodes.lookup curr).isSome
  · simp only [processEntity, hvis, if_true]
    exact ⟨hdata, hfresh⟩
  · have hsome : (st.data.lookup curr).isSome = true := by
      rw [hdata]; exact lookup_isSome_of_mem data0 curr hcurr
    obtain ⟨v, hv⟩ := Option.isSome_iff_exists.mp hsome
    obtain ⟨attr, haddn⟩ := addNode_indexed st.net curr st.data "" hsome
    have hrefs : ∀ x ∈ v.flatMap IndexedObj.refs, x ∈ data0.map Prod.fst := by
      intro x hx
      obtain ⟨o, ho, hr⟩ := List.mem_flatMap.mp hx
      have hmem : (curr, v) ∈ data0 := by
        rw [hdata] at hv
        exact mem_of_lookup_eq_some data0 curr v hv
      have hv2 := hv
      exact hnd (curr, v) hmem o ho x hr
    simp only [processEntity, hvis, hsome, if_true, haddn, hv]
    constructor
    · simp [hdata]
    · intro x hx
      simp only [Option.getD_some] at hx
      exact setInsertAll_subset_keys (data0.map Prod.fst) (v.flatMap IndexedObj.refs)
        st.fresh hfresh hrefs x hx

theorem foldl_processEntity_data (data0 : DDict) (hnd : noDangling data0) :
    ∀ (front : List String) (st : RSt), st.data = data0 →
    (∀ x ∈ st.fresh, x ∈ data0.map Prod.fst) → (∀ x ∈ front, x ∈ data0.map Prod.fst) →
    (front.foldl processEntity st).data = data0 ∧
    (∀ x ∈ (front.foldl processEntity st).fresh, x ∈ data0.map Prod.fst) := by
  intro front
  induction front with
  | nil => intro st h1 h2 _; exact ⟨h1, h2⟩
  | cons c front ih =>
    intro st h1 h2 h3
    obtain ⟨hd, hf⟩ := processEntity_data data0 hnd st c h1 h2 (h3 c (by simp))
    exact ih (processEntity st c) hd hf (fun x hx => h3 x (by simp [hx]))

theorem rootedLoop_data (data0 : DDict) (hnd : noDangling data0) :
    ∀ (f : Nat) (st : RSt) (front : List String), st.data = data0 →
    (∀ x ∈ front, x ∈ data0.map Prod.fst) →
    (rootedLoop f st front).1.data = data0 := by
  intro f
  induction f with
  | zero => intro st front h _; simpa [rootedLoop] using h
  | succ f ih =>
    intro st front h hf
    rcases front with _ | ⟨c, front⟩
    · simpa [rootedLoop] using h
    · rw [rootedLoop_succ_cons]
      have hb := foldl_processEntity_data data0 hnd (c :: front) { st with fresh := [] }
        h (by simp) hf
      exact ih (rootedBatch st (c :: front)) (rootedBatch st (c :: front)).fresh hb.1 hb.2


theorem simpleEntity_keeps_color (kw : String) (rest : BodyL) (c : String)
    (hc : 0 < c.length) :
    (simpleEntity (.cons (.bstr kw) rest) (.s c)).2 = .s c := by
  simp only [simpleEntity, colLen]
  rw [if_neg (by omega)]

/-! ## Claim C10 -/

/-- C10: in complete-graph mode (here on a model without dangling
references, so that the build completes), the first node ever inserted is
colored entry (`indigo`) even when its leading keyword has an entry in
the type-to-color table: `add_node` assigns the entry color before
`simple_entity` runs, and `simple_entity` only consults the table when no
color is set yet. -/
theorem c10_entry_precedence (k kw : String) (obj : IndexedObj) (rest : DDict) (bodyRest : BodyL)
    (hbody : obj.body = .blst (.cons (.bstr kw) bodyRest))
    (htable : (NODE_COLOR.lookup kw).isSome)
    (hnd : noDangling ((k, [obj]) :: rest)) :
    ∃ netC d tl, makeGraphComplete emptyNet ((k, [obj]) :: rest) = .ok (netC, d) ∧
      netC.nodes.head? = some (k, ⟨tl, some ENTRY_NODE_COLOR⟩) := by
  set data := (k, [obj]) :: rest with hdef
  have hlook : data.lookup k = some [obj] := by simp [hdef, List.lookup]
  have h1 : addNode emptyNet k data "" =
      (⟨[(k, ⟨(simpleEntity (.cons (.bstr kw) bodyRest) (.s ENTRY_NODE_COLOR)).1,
            some ENTRY_NODE_COLOR⟩)], []⟩, data) := by
    have hcol := simpleEntity_keeps_color kw bodyRest ENTRY_NODE_COLOR (by decide)
    simp only [ENTRY_NODE_COLOR] at hcol
    simp only [addNode, ddGet, hlook, emptyNet, List.foldl_cons, List.foldl_nil, hbody]
    simp [hcol, colLen, colVStr, ENTRY_NODE_COLOR]
    decide
  unfold makeGraphComplete
  have hkeys : data.map Prod.fst = k :: rest.map Prod.fst := by simp [hdef]
  rw [hkeys]
  have hmem : ∀ x ∈ rest.map Prod.fst, (data.lookup x).isSome := by
    intro x hx
    apply lookup_isSome_of_mem
    rw [hkeys]
    simp [hx]
  obtain ⟨ext, hn⟩ := completeNodesLoop_ok data (rest.map Prod.fst)
    ⟨[(k, ⟨(simpleEntity (.cons (.bstr kw) bodyRest) (.s ENTRY_NODE_COLOR)).1,
          some ENTRY_NODE_COLOR⟩)], []⟩ hmem
  have hstep : completeNodesLoop data.length emptyNet data (k :: rest.map Prod.fst) =
      .ok (⟨[(k, ⟨(simpleEntity (.cons (.bstr kw) bodyRest) (.s ENTRY_NODE_COLOR)).1,
          some ENTRY_NODE_COLOR⟩)] ++ ext, []⟩, data) := by
    simp only [completeNodesLoop, h1, ne_eq, not_true_eq_false, if_false, ite_self]
    simpa using hn
  rw [hstep]
  obtain ⟨E, hE⟩ := completeEdgesLoop_ok data hnd (data.map Prod.fst)
    ⟨[(k, ⟨(simpleEntity (.cons (.bstr kw) bodyRest) (.s ENTRY_NODE_COLOR)).1,
          some ENTRY_NODE_COLOR⟩)] ++ ext, []⟩
  refine ⟨_, data, (simpleEntity (.cons (.bstr kw) bodyRest) (.s ENTRY_NODE_COLOR)).1,
    hE, ?_⟩
  simp

/-- C10 witness: `#1=CARTESIAN_POINT();` — `CARTESIAN_POINT` is in the
color table, yet the first node is entry-colored. -/
theorem c10_entry_precedence_witness :
    ∃ netC d tl, makeGraphComplete emptyNet dataCartesian = .ok (netC, d) ∧
      netC.nodes.head? = some ("#1", ⟨tl, some ENTRY_NODE_COLOR⟩) :=
  c10_entry_precedence "#1" "CARTESIAN_POINT"
    ⟨.blst (.cons (.bstr "CARTESIAN_POINT") .nil), [], (1, 1)⟩ [] .nil rfl
    (by decide) (by decide)

/-! ## Claim C3 -/

/-- C3 (amended): when the model has no dangling references and (for the
rooted mode) the root is indexed, both graph builders are pure: the
complete build succeeds and returns the model's data dict unchanged, the
rooted build returns it unchanged, and rebuilding from the returned model
is literally the same computation, so nodes, titles, colors and edges all
coincide.  (Without these hypotheses the builders mutate the model — see
the counterexample.) -/
theorem c3_graph_building_pure (data : DDict) (root : String) (hnd : noDangling data)
    (hroot : root ∈ data.map Prod.fst) :
    (∃ netC, makeGraphComplete emptyNet data = .ok (netC, data)) ∧
    (makeGraphEntity emptyNet data root).2 = data ∧
    makeGraphEntity emptyNet ((makeGraphEntity emptyNet data root).2) root =
      makeGraphEntity emptyNet data root := by
  have hdata2 : (makeGraphEntity emptyNet data root).2 = data := by
    unfold makeGraphEntity
    exact rootedLoop_data data hnd (rootedFuel data) ⟨emptyNet, data, [], []⟩ [root] rfl
      (by intro x hx; simp at hx; subst hx; exact hroot)
  refine ⟨?_, hdata2, by rw [hdata2]⟩
  unfold makeGraphComplete
  obtain ⟨ext, hn⟩ := completeNodesLoop_ok data (data.map Prod.fst) emptyNet
    (fun k hk => lookup_isSome_of_mem data k hk)
  rw [hn]
  obtain ⟨E, hE⟩ := completeEdgesLoop_ok data hnd (data.map Prod.fst)
    ⟨emptyNet.nodes ++ ext, emptyNet.edges⟩
  exact ⟨⟨emptyNet.nodes ++ ext, emptyNet.edges ++ E⟩, hE⟩

/-- C3 witness: the cycle model, which has no dangling references. -/
theorem c3_graph_building_pure_witness :
    ((∃ netC, makeGraphComplete emptyNet dataCycle = .ok (netC, dataCycle)) ∧
    (makeGraphEntity emptyNet dataCycle "#1").2 = dataCycle ∧
    makeGraphEntity emptyNet ((makeGraphEntity emptyNet dataCycle "#1").2) "#1" =
      makeGraphEntity emptyNet dataCycle "#1") :=
  c3_graph_building_pure dataCycle "#1" (by decide) (by decide)


/-- C3 counterexample: graph building is not free of effects on the
Model — rooting the dangling model at `#1` reaches the dangling id `#2`,
and `add_node`'s defaultdict read inserts an empty entry for it, so the
model's data dict after the build differs from the one before (a second
build would then color `#2` differently).  The claim as stated (both
modes leave the Model unchanged) is false. -/
theorem c3_purity_claim_false :
    (makeGraphEntity emptyNet dataDangling "#1").2 ≠ dataDangling ∧
    (makeGraphEntity emptyNet dataDangling "#1").2 = dataDangling ++ [("#2", [])] := by
  decide

/-! ## Helpers: termination of the rooted traversal (C4) -/

theorem lookup_append_some {β : Type} (d rest : List (String × β)) (k : String) (v : β)
    (h : d.lookup k = some v) : (d ++ rest).lookup k = some v := by
  induction d with
  | nil => simp [List.lookup] at h
  | cons a d ih =>
    obtain ⟨ka, va⟩ := a
    by_cases hk : k = ka
    · subst hk
      simpa [List.lookup] using h
    · have hbeq : (k == ka) = false := by simp [hk]
      simp only [List.lookup, hbeq] at h
      simpa [List.lookup, hbeq] using ih h

theorem lookup_append_none {β : Type} (d rest : List (String × β)) (k : String)
    (h : d.lookup k = none) : (d ++ rest).lookup k = rest.lookup k := by
  induction d with
  | nil => simp
  | cons a d ih =>
    obtain ⟨ka, va⟩ := a
    by_cases hk : k = ka
    · subst hk
      simp [List.lookup] at h
    · have hbeq : (k == ka) = false := by simp [hk]
      simp only [List.lookup, hbeq] at h
      simpa [List.lookup, hbeq] using ih h

theorem mem_keys_of_lookup_isSome {β : Type} (l : List (String × β)) (k : String)
    (h : (l.lookup k).isSome) : k ∈ l.map Prod.fst := by
  obtain ⟨v, hv⟩ := Option.isSome_iff_exists.mp h
  have := mem_of_lookup_eq_some l k v hv
  exact List.mem_map.mpr ⟨(k, v), this, rfl⟩

theorem addValRefs_keys (l : List (String × List String)) (k : String) (refs : List String) :
    (addValRefs l k refs).map Prod.fst = l.map Prod.fst := by
  induction l with
  | nil => rfl
  | cons a l ih =>
    obtain ⟨ka, va⟩ := a
    by_cases hk : ka = k
    · simp [addValRefs, hk]
    · simp [addValRefs, hk, ih]

theorem processEntity_visited (st : RSt) (curr : String)
    (h : curr ∈ st.nodes.map Prod.fst) : processEntity st curr = st := by
  have hs := lookup_isSome_of_mem st.nodes curr h
  simp [processEntity, hs]

theorem processEntity_props (st : RSt) (curr : String) (U : List String)
    (hinv : ∀ k v, st.data.lookup k = some v → ∀ x ∈ v.flatMap IndexedObj.refs, x ∈ U)
    (hfr : ∀ x ∈ st.fresh, x ∈ U) :
    (∀ k v, (processEntity st curr).data.lookup k = some v →
        ∀ x ∈ v.flatMap IndexedObj.refs, x ∈ U) ∧
    (∀ x ∈ (processEntity st curr).fresh, x ∈ U) ∧
    (∀ x ∈ st.nodes.map Prod.fst, x ∈ (processEntity st curr).nodes.map Prod.fst) ∧
    (curr ∈ (processEntity st curr).nodes.map Prod.fst) := by
  by_cases hvis : (st.nodes.lookup curr).isSome
  · have heq : processEntity st curr = st := by simp [processEntity, hvis]
    rw [heq]
    exact ⟨hinv, hfr, fun x hx => hx, mem_keys_of_lookup_isSome st.nodes curr hvis⟩
  · by_cases hdat : (st.data.lookup curr).isSome
    · obtain ⟨v, hv⟩ := Option.isSome_iff_exists.mp hdat
      obtain ⟨attr, haddn⟩ := addNode_indexed st.net curr st.data "" hdat
      have heq : processEntity st curr =
          { net := (addNode st.net curr st.data "").1, data := st.data,
            nodes := addValRefs (st.nodes ++ [(curr, [])]) curr (v.flatMap IndexedObj.refs),
            fresh := setInsertAll st.fresh (v.flatMap IndexedObj.refs) } := by
        simp only [processEntity, hvis, hdat, if_true, haddn, hv, Option.getD_some]
        simp [haddn]
      rw [heq]
      refine ⟨hinv, ?_, ?_, ?_⟩
      · exact setInsertAll_subset_keys U (v.flatMap IndexedObj.refs) st.fresh hfr
          (hinv curr v hv)
      · intro x hx
        simp only [addValRefs_keys]
        simp [hx]
      · simp only [addValRefs_keys]
        simp
    · have hnone : st.data.lookup curr = none := by
        rcases h : st.data.lookup curr with _ | v
        · rfl
        · rw [h] at hdat; simp at hdat
      have heq : processEntity st curr =
          { net := (addNode st.net curr st.data FAILURE_NODE_COLOR).1,
            data := st.data ++ [(curr, [])],
            nodes := st.nodes ++ [(curr, [])], fresh := st.fresh } := by
        have hd2 : (addNode st.net curr st.data FAILURE_NODE_COLOR).2 =
            st.data ++ [(curr, [])] := by
          simp [addNode, ddGet, hnone]
        simp only [processEntity, hvis, hdat, if_false]
        simp [hd2]
      rw [heq]
      refine ⟨?_, hfr, ?_, ?_⟩
      · intro k v hkv x hx
        by_cases hk : (st.data.lookup k).isSome
        · obtain ⟨w, hw⟩ := Option.isSome_iff_exists.mp hk
          rw [lookup_append_some st.data [(curr, [])] k w hw] at hkv
          cases hkv
          exact hinv k _ hw x hx
        · have hkn : st.data.lookup k = none := by
            rcases hh : st.data.lookup k with _ | w
            · rfl
            · rw [hh] at hk; simp at hk
          rw [lookup_append_none st.data [(curr, [])] k hkn] at hkv
          by_cases hkc : k = curr
          · subst hkc
            simp [List.lookup] at hkv
            subst hkv
            simp at hx
          · have hbe : (k == curr) = false := by simp [hkc]
            simp only [List.lookup, hbe] at hkv
            exact absurd hkv (by simp)
      · intro x hx; simp [hx]
      · simp

theorem foldl_processEntity_props (U : List String) :
    ∀ (front : List String) (st : RSt),
    (∀ k v, st.data.lookup k = some v → ∀ x ∈ v.flatMap IndexedObj.refs, x ∈ U) →
    (∀ x ∈ st.fresh, x ∈ U) →
    (∀ k v, (front.foldl processEntity st).data.lookup k = some v →
        ∀ x ∈ v.flatMap IndexedObj.refs, x ∈ U) ∧
    (∀ x ∈ (front.foldl processEntity st).fresh, x ∈ U) ∧
    (∀ x ∈ st.nodes.map Prod.fst, x ∈ (front.foldl processEntity st).nodes.map Prod.fst) ∧
    (∀ x ∈ front, x ∈ (front.foldl processEntity st).nodes.map Prod.fst) := by
  intro front
  induction front with
  | nil => intro st h1 h2; exact ⟨h1, h2, fun x hx => hx, by simp⟩
  | cons c front ih =>
    intro st h1 h2
    obtain ⟨p1, p2, p3, p4⟩ := processEntity_props st c U h1 h2
    obtain ⟨q1, q2, q3, q4⟩ := ih (processEntity st c) p1 p2
    refine ⟨q1, q2, fun x hx => q3 x (p3 x hx), ?_⟩
    intro x hx
    rcases List.mem_cons.mp hx with rfl | hmem
    · exact q3 x p4
    · exact q4 x hmem

theorem foldl_processEntity_all_visited :
    ∀ (front : List String) (st : RSt),
    (∀ x ∈ front, x ∈ st.nodes.map Prod.fst) → front.foldl processEntity st = st := by
  intro front
  induction front with
  | nil => intro st _; rfl
  | cons c front ih =>
    intro st h
    have hc := processEntity_visited st c (h c (by simp))
    simp only [List.foldl_cons, hc]
    exact ih st (fun x hx => h x (by simp [hx]))

theorem filter_length_mono {α : Type} (l : List α) (p q : α → Bool)
    (hpq : ∀ a, p a = true → q a = true) :
    (l.filter p).length ≤ (l.filter q).length := by
  induction l with
  | nil => simp
  | cons a l ih =>
    by_cases hpa : p a = true
    · rw [List.filter_cons_of_pos hpa, List.filter_cons_of_pos (hpq a hpa)]
      simpa using ih
    · rw [List.filter_cons_of_neg hpa]
      by_cases hqa : q a = true
      · rw [List.filter_cons_of_pos hqa]
        calc (l.filter p).length ≤ (l.filter q).length := ih
          _ ≤ (a :: l.filter q).length := by simp
      · rw [List.filter_cons_of_neg hqa]
        exact ih

theorem filter_length_lt {α : Type} (l : List α) (p q : α → Bool)
    (hpq : ∀ a, p a = true → q a = true) (e : α) (he : e ∈ l)
    (hq : q e = true) (hp : p e = false) :
    (l.filter p).length < (l.filter q).length := by
  induction l with
  | nil => simp at he
  | cons a l ih =>
    rcases List.mem_cons.mp he with rfl | hmem
    · have hmono := filter_length_mono l p q hpq
      rw [List.filter_cons_of_neg (by simp [hp]), List.filter_cons_of_pos hq]
      simp
      omega
    · by_cases hpa : p a = true
      · rw [List.filter_cons_of_pos hpa, List.filter_cons_of_pos (hpq a hpa)]
        simpa using ih hmem
      · rw [List.filter_cons_of_neg hpa]
        by_cases hqa : q a = true
        · rw [List.filter_cons_of_pos hqa]
          have := ih hmem
          simp
          omega
        · rw [List.filter_cons_of_neg hqa]
          exact ih hmem

theorem refs_sub_allRefs (d : DDict) (k : String) (v : List IndexedObj)
    (h : d.lookup k = some v) :
    ∀ x ∈ v.flatMap IndexedObj.refs, x ∈ allRefs d := by
  intro x hx
  exact List.mem_flatMap.mpr ⟨(k, v), mem_of_lookup_eq_some d k v h, hx⟩

theorem rootedLoop_halts (U : List String) :
    ∀ (m : Nat) (f : Nat) (st : RSt) (front : List String),
    (∀ k v, st.data.lookup k = some v → ∀ x ∈ v.flatMap IndexedObj.refs, x ∈ U) →
    (∀ x ∈ front, x ∈ U) →
    ((U.filter (fun x => decide (x ∉ st.nodes.map Prod.fst))).length ≤ m) →
    (m + 2 ≤ f) →
    (rootedLoop f st front).2 = [] := by
  intro m
  induction m with
  | zero =>
    intro f st front hinv hfU hmeas hf
    have h0 : U.filter (fun x => decide (x ∉ st.nodes.map Prod.fst)) = [] :=
      List.length_eq_zero.mp (by omega)
    have hvisited : ∀ x ∈ U, x ∈ st.nodes.map Prod.fst := by
      intro x hx
      by_contra hnx
      have hmemf : x ∈ U.filter (fun x => decide (x ∉ st.nodes.map Prod.fst)) :=
        List.mem_filter.mpr ⟨hx, by simpa using hnx⟩
      rw [h0] at hmemf
      simp at hmemf
    rcases front with _ | ⟨c, front⟩
    · obtain ⟨f1, rfl⟩ : ∃ f1, f = f1 + 2 := ⟨f - 2, by omega⟩
      simp [rootedLoop_empty]
    · obtain ⟨f1, rfl⟩ : ∃ f1, f = f1 + 2 := ⟨f - 2, by omega⟩
      rw [show f1 + 2 = (f1 + 1) + 1 from rfl, rootedLoop_succ_cons]
      have hb : rootedBatch st (c :: front) = { st with fresh := [] } := by
        unfold rootedBatch
        exact foldl_processEntity_all_visited (c :: front) { st with fresh := [] }
          (fun x hx => hvisited x (hfU x hx))
      rw [hb]
      simp [rootedLoop_empty]
  | succ m ih =>
    intro f st front hinv hfU hmeas hf
    rcases front with _ | ⟨c, front⟩
    · obtain ⟨f1, rfl⟩ : ∃ f1, f = f1 + 1 := ⟨f - 1, by omega⟩
      simp [rootedLoop_empty]
    · obtain ⟨f1, rfl⟩ : ∃ f1, f = f1 + 1 := ⟨f - 1, by omega⟩
      rw [rootedLoop_succ_cons]
      by_cases hall : ∀ x ∈ c :: front, x ∈ st.nodes.map Prod.fst
      · have hb : rootedBatch st (c :: front) = { st with fresh := [] } := by
          unfold rootedBatch
          exact foldl_processEntity_all_visited _ _ hall
        rw [hb]
        obtain ⟨f2, rfl⟩ : ∃ f2, f1 = f2 + 1 := ⟨f1 - 1, by omega⟩
        simp [rootedLoop_empty]
      · push_neg at hall
        obtain ⟨e, heF, heK⟩ := hall
        obtain ⟨q1, q2, q3, q4⟩ := foldl_processEntity_props U (c :: front)
          { st with fresh := [] } hinv (by simp)
        have hq4 : e ∈ (rootedBatch st (c :: front)).nodes.map Prod.fst := q4 e heF
        have hq3 : ∀ x ∈ st.nodes.map Prod.fst,
            x ∈ (rootedBatch st (c :: front)).nodes.map Prod.fst := q3
        have hlt : ((U.filter (fun x =>
              decide (x ∉ (rootedBatch st (c :: front)).nodes.map Prod.fst))).length)
            < ((U.filter (fun x => decide (x ∉ st.nodes.map Prod.fst))).length) := by
          apply filter_length_lt U _ _ ?_ e (hfU e heF) (by simpa using heK)
            (by simpa using hq4)
          intro a ha
          simp only [decide_eq_true_eq] at ha ⊢
          intro hmem
          exact ha (hq3 a hmem)
        exact ih f1 (rootedBatch st (c :: front)) (rootedBatch st (c :: front)).fresh
          q1 q2 (by omega) (by omega)

/-! ## Claim C4 -/

/-- C4: the rooted-reachability traversal terminates for every model and
root, cyclic reference relations included, because a node already in the
visited map is never re-expanded: with the fuel `make_graph_entity` uses
(one more than the number of reference occurrences plus two), the
frontier is provably empty, i.e. the `while` loop has exited on its own.
In particular the cycle `#1=FOO(#2); #2=BAR(#1);` (whose index is exactly
`dataCycle`) yields, rooted at `#1`, a graph with exactly two nodes. -/
theorem c4_rooted_termination :
    (∀ (net : Net) (data : DDict) (root : String),
      (rootedLoop (rootedFuel data) ⟨net, data, [], []⟩ [root]).2 = []) ∧
    exploreData [entCycle1, entCycle2] = .ok dataCycle ∧
    (makeGraphEntity emptyNet dataCycle "#1").1.nodes.length = 2 := by
  refine ⟨?_, by decide, by decide⟩
  intro net data root
  rw [show rootedFuel data = ((allRefs data).length + 2) + 1 from rfl, rootedLoop_succ_cons]
  obtain ⟨q1, q2, q3, q4⟩ := foldl_processEntity_props (allRefs data) [root]
    { net := net, data := data, nodes := [], fresh := [] }
    (fun k v h => refs_sub_allRefs data k v h) (by simp)
  exact rootedLoop_halts (allRefs data) (allRefs data).length ((allRefs data).length + 2)
    _ _ q1 q2 (List.length_filter_le _ _) (by omega)

/-! ## Helpers: sortedness of the expected-terminal list (C7) -/

theorem strLeChars_total : ∀ (a b : List Char),
    strLeChars a b = true ∨ strLeChars b a = true := by
  intro a
  induction a with
  | nil => intro b; left; rfl
  | cons x xs ih =>
    intro b
    cases b with
    | nil => right; rfl
    | cons y ys =>
      by_cases hxy : x = y
      · subst hxy
        rcases ih ys with h | h
        · left; simp [strLeChars, h]
        · right; simp [strLeChars, h]
      · rcases lt_trichotomy x y with h | h | h
        · left; simp [strLeChars, hxy, h]
        · exact absurd h hxy
        · right; simp [strLeChars, Ne.symm hxy, h]

theorem strLeChars_trans : ∀ (a b c : List Char), strLeChars a b = true →
    strLeChars b c = true → strLeChars a c = true := by
  intro a
  induction a with
  | nil => intro b c _ _; rfl
  | cons x xs ih =>
    intro b c hab hbc
    cases b with
    | nil => simp [strLeChars] at hab
    | cons y ys =>
      cases c with
      | nil => simp [strLeChars] at hbc
      | cons z zs =>
        by_cases hxy : x = y <;> by_cases hyz : y = z
        · subst hxy; subst hyz
          simp only [strLeChars, if_pos rfl] at hab hbc ⊢
          exact ih ys zs hab hbc
        · subst hxy
          simp only [strLeChars, if_pos rfl] at hab
          simp only [strLeChars, if_neg hyz] at hbc
          simp [strLeChars, hyz, hbc]
        · subst hyz
          simp only [strLeChars, if_neg hxy] at hab
          simp [strLeChars, hxy, hab]
        · simp only [strLeChars, if_neg hxy] at hab
          simp only [strLeChars, if_neg hyz] at hbc
          simp only [decide_eq_true_eq] at hab hbc
          have hxz : x < z := lt_trans hab hbc
          have hne : ¬ x = z := ne_of_lt hxz
          simp [strLeChars, hne, hxz]

theorem pyStrLe_total (a b : String) : pyStrLe a b = true ∨ pyStrLe b a = true :=
  strLeChars_total a.data b.data

theorem pyStrLe_trans (a b c : String) (h1 : pyStrLe a b = true)
    (h2 : pyStrLe b c = true) : pyStrLe a c = true :=
  strLeChars_trans a.data b.data c.data h1 h2

theorem mem_insSorted (x y : String) (l : List String) :
    y ∈ insSorted x l ↔ y = x ∨ y ∈ l := by
  induction l with
  | nil => simp [insSorted]
  | cons a l ih =>
    by_cases h : pyStrLe x a
    · simp only [insSorted, if_pos h]
      simp
    · simp only [insSorted, if_neg h]
      simp [ih]
      tauto

theorem mem_pySorted (y : String) (l : List String) : y ∈ pySorted l ↔ y ∈ l := by
  induction l with
  | nil => simp [pySorted]
  | cons a l ih =>
    simp only [pySorted, mem_insSorted, ih]
    simp

theorem pairwise_insSorted (x : String) (l : List String)
    (h : List.Pairwise (fun a b => pyStrLe a b = true) l) :
    List.Pairwise (fun a b => pyStrLe a b = true) (insSorted x l) := by
  induction l with
  | nil => simp [insSorted]
  | cons a l ih =>
    rcases List.pairwise_cons.mp h with ⟨ha, hl⟩
    by_cases hle : pyStrLe x a
    · rw [insSorted, if_pos hle]
      refine List.pairwise_cons.mpr ⟨?_, h⟩
      intro y hy
      rcases List.mem_cons.mp hy with rfl | hyl
      · exact hle
      · exact pyStrLe_trans x a y hle (ha y hyl)
    · rw [insSorted, if_neg hle]
      have hax : pyStrLe a x = true := by
        rcases pyStrLe_total x a with h1 | h1
        · exact absurd h1 hle
        · exact h1
      refine List.pairwise_cons.mpr ⟨?_, ih hl⟩
      intro y hy
      rcases (mem_insSorted x y l).mp hy with rfl | hyl
      · exact hax
      · exact ha y hyl

theorem pairwise_pySorted (l : List String) :
    List.Pairwise (fun a b => pyStrLe a b = true) (pySorted l) := by
  induction l with
  | nil => simp [pySorted]
  | cons a l ih => exact pairwise_insSorted a (pySorted l) ih

/-! ## Claim C7 -/

/-- C7: whenever the (external, spec-modelled) LALR engine reports its
first failure — an unexpected token or an unrecognizable character — the
pipeline raises a Syntax Error and returns no model, and the error's
record carries the engine's 1-based line and column, the offending
token's kind (lower-cased) and literal text, the failure type, and the
acceptable terminal names with the internal `__ANON` names excluded,
sorted ascending (pairwise `≤` by code point); membership in the
reported set is exactly membership in the engine's accepts-set minus the
anonymous names.  No recovery path exists: the error is the whole
result. -/
theorem c7_syntax_error_record (filecontent : String) (e : LarkExc) :
    parsePipeline filecontent (.error e) = .error (.syn (synAsdict filecontent e)) ∧
    (synAsdict filecontent e).lineno = e.line ∧
    (synAsdict filecontent e).column = e.column ∧
    (synAsdict filecontent e).found_type = pyLower e.tokenType ∧
    (synAsdict filecontent e).found_value = e.tokenValue ∧
    (synAsdict filecontent e).typeTag =
      (if e.isUnexpectedToken then "unexpected_token" else "unexpected_character") ∧
    (∀ x, x ∈ (synAsdict filecontent e).expected ↔
        x ∈ e.accepts ∧ containsAnon x = false) ∧
    List.Pairwise (fun a b => pyStrLe a b = true) (synAsdict filecontent e).expected := by
  refine ⟨rfl, rfl, rfl, rfl, rfl, rfl, ?_, ?_⟩
  · intro x
    simp [synAsdict, mem_pySorted, List.mem_filter]
  · exact pairwise_pySorted _
